import Mathlib

/-!
# Verification of the agency-coverage / rate-card reconciliation pipeline

A shallow embedding of `src/agency_dashboard.py`: the name normaliser
`clean_name`, the approximate matcher `fuzzy_match` (rapidfuzz
`fuzz.ratio` = Indel similarity, expressed through the longest common
subsequence), rate-card ingestion, spine construction, the two left
joins, presence classification, city averages and the sidebar filters.

Tables are lists of typed records; a pandas `NaN` / missing cell is
`Option.none`.  Numeric cells are classified by parseability: `Cell.num`
stands for a cell that `pd.to_numeric(..., errors="coerce")` parses,
`Cell.str` for unparseable text, `Cell.missing` for an empty cell.
-/

set_option linter.unusedVariables false

namespace AgencyDashboard

/-- Threshold constant `FUZZY_THRESHOLD = 85` (line 13 of the source). -/
def FUZZY_THRESHOLD : ℕ := 85

/-! ## `clean_name` (source lines 18-24)

`pd.isna(val)` → `""`; otherwise lower-case, strip every character
outside `[a-z0-9 ]`, then delete the remaining whitespace (after the
strip the only whitespace character left is `' '`). -/

/-- Characters the regex `[^a-z0-9 ]` keeps. -/
def keepChar (c : Char) : Bool :=
  (('a' ≤ c && c ≤ 'z') || ('0' ≤ c && c ≤ '9') || (c = ' '))

/-- Function `clean_name` from the source; `none` models a missing (`NaN`) value. -/
def clean_name (val : Option String) : String :=
  match val with
  | none => ""
  | some s =>
      String.mk ((((s.toList.map Char.toLower).filter keepChar).filter (fun c => c ≠ ' ')))

/-! ## rapidfuzz `fuzz.ratio` and `process.extractOne`

`fuzz.ratio(a, b) = 100 * (1 - indel(a,b) / (|a| + |b|))` where the
Indel distance is `|a| + |b| - 2 * lcs(a, b)`, so the ratio equals
`200 * lcs(a,b) / (|a| + |b|)` (and `100` when both strings are empty).
`extractOne` scans the pool left to right and keeps the first candidate
attaining the maximal score. -/

/-- Longest-common-subsequence recursion, driven by a fuel counter so
that the definition is structurally recursive (every recursive call
strictly shrinks `l₁.length + l₂.length`, so fuel `l₁.length + l₂.length`
never runs out). -/
def lcsAux : Nat → List Char → List Char → Nat
  | 0, _, _ => 0
  | _ + 1, [], _ => 0
  | _ + 1, _ :: _, [] => 0
  | f + 1, a :: as, b :: bs =>
      if a = b then 1 + lcsAux f as bs
      else max (lcsAux f (a :: as) bs) (lcsAux f as (b :: bs))

/-- Length of the longest common subsequence of two character lists. -/
def lcs (l₁ l₂ : List Char) : Nat :=
  lcsAux (l₁.length + l₂.length) l₁ l₂

/-- Numerator of the similarity score: `200 * lcs`. -/
def ratioNum (a b : String) : ℕ := 200 * lcs a.toList b.toList

/-- Denominator of the similarity score: `|a| + |b|`. -/
def ratioDen (a b : String) : ℕ := a.toList.length + b.toList.length

/-- Score `fuzz.ratio` on a 0–100 scale, as a rational (`100` for two empty
strings, the rapidfuzz convention). -/
def ratio (a b : String) : ℚ :=
  if ratioDen a b = 0 then 100 else (ratioNum a b : ℚ) / (ratioDen a b : ℚ)

/-- Decidable comparison `ratio n b < ratio n c`, by cross
multiplication of the exact fractions (an empty/empty pair scores
`100/1`). -/
def ratioLt (n b c : String) : Bool :=
  let pb := if ratioDen n b = 0 then (100, 1) else (ratioNum n b, ratioDen n b)
  let pc := if ratioDen n c = 0 then (100, 1) else (ratioNum n c, ratioDen n c)
  pb.1 * pc.2 < pc.1 * pb.2

/-- Decidable test `FUZZY_THRESHOLD ≤ ratio n c`. -/
def ratioGeThreshold (n c : String) : Bool :=
  if ratioDen n c = 0 then true
  else FUZZY_THRESHOLD * ratioDen n c ≤ ratioNum n c

/-- Left-to-right scan keeping the first candidate of maximal score:
the running best `b` is replaced only on a strictly larger score. -/
def bestFrom (n : String) (b : String) : List String → String
  | [] => b
  | c :: cs => if ratioLt n b c then bestFrom n c cs else bestFrom n b cs

/-- Model of `process.extractOne(name, choices, scorer=fuzz.ratio)`:
`None` on an empty pool, otherwise the first best-scoring choice
(the score it also returns is reconstructed as `ratio n result`). -/
def extractOne (n : String) : List String → Option String
  | [] => none
  | c :: cs => some (bestFrom n c cs)

/-- Function `fuzzy_match` (source lines 26-32): guard on a falsy name or an
empty pool, then accept the best candidate only at score ≥ 85. -/
def fuzzy_match (name : String) (choices : List String) : Option String :=
  if name = "" ∨ choices = [] then none
  else
    match extractOne name choices with
    | none => none
    | some c => if ratioGeThreshold name c then some c else none

/-! ## Data model

Rows of the two uploaded tables after the required-column check and the
optional-column back-fill (source lines 62-87): a coverage row has
`agency_name`, `city` and the — possibly back-filled as all-missing —
`role_category` / `supply_capability`; a rate-card row has
`agency_name`, `venue_city`, `agency_margin` and `platforms.employer_id`
(back-filled from `employer_id` or as missing). -/

/-- One CSV cell of the `agency_margin` column, classified by what
`pd.to_numeric(..., errors="coerce")` does with it: `num q` is a cell it
parses to the number `q` (numeric literals and numeric strings), `str s`
a cell it cannot parse, `missing` an empty cell. -/
inductive Cell where
  | num (q : ℚ)
  | str (s : String)
  | missing
deriving DecidableEq, Repr

/-- Model of `pd.to_numeric(..., errors="coerce")`: unparseable or missing → `NaN`. -/
def toNumeric : Cell → Option ℚ
  | .num q => some q
  | .str _ => none
  | .missing => none

/-- An uploaded coverage row (after back-fill of optional columns). -/
structure CovRowIn where
  agency_name : Option String
  city : Option String
  role_category : Option String
  supply_capability : Option String
deriving DecidableEq, Repr

/-- An uploaded rate-card row (after back-fill of `platforms.employer_id`);
`agency_margin` is still the raw cell. -/
structure RateRowIn where
  agency_name : Option String
  venue_city : Option String
  agency_margin : Cell
  employer_id : Option String
deriving DecidableEq, Repr

/-- A rate-card row after the numeric coercion of `agency_margin`. -/
structure RateRow where
  agency_name : Option String
  venue_city : Option String
  agency_margin : Option ℚ
  employer_id : Option String
deriving DecidableEq, Repr

/-- Source line 90: coerce `agency_margin` to numeric. -/
def coerceMargin (r : RateRowIn) : RateRow :=
  { agency_name := r.agency_name
    venue_city := r.venue_city
    agency_margin := toNumeric r.agency_margin
    employer_id := r.employer_id }

/-- Source lines 90-91: coerce margins, then
`dropna(subset=["agency_margin"])`. -/
def ingestRatecard (rows : List RateRowIn) : List RateRow :=
  (rows.map coerceMargin).filter (fun r => r.agency_margin.isSome)

/-- A coverage row with its cleaned keys (source lines 96-97). -/
structure CovRowC where
  agency_name : Option String
  city : Option String
  role_category : Option String
  supply_capability : Option String
  agency_clean : String
  city_clean : String
deriving DecidableEq, Repr

/-- Source lines 96-97: add `agency_clean` and `city_clean`. -/
def cleanCov (r : CovRowIn) : CovRowC :=
  { agency_name := r.agency_name
    city := r.city
    role_category := r.role_category
    supply_capability := r.supply_capability
    agency_clean := clean_name r.agency_name
    city_clean := clean_name r.city }

/-- A rate-card row with cleaned keys and both fuzzy-match columns
(source lines 99-116). -/
structure RateRowC where
  agency_name : Option String
  venue_city : Option String
  agency_margin : Option ℚ
  employer_id : Option String
  agency_clean : String
  city_clean : String
  coverage_agency_clean : Option String
  coverage_city_clean : Option String
deriving DecidableEq, Repr

/-- Model of `Series.unique()`: distinct values in first-occurrence order
(the cleaned-key columns never hold `NaN`, so the preceding `dropna()`
is the identity). -/
def uniqueFirst : List String → List String
  | [] => []
  | x :: xs => x :: (uniqueFirst xs).filter (fun y => y ≠ x)

/-- The pool `coverage_agencies` (source line 105). -/
def coverageAgencies (cov : List CovRowC) : List String :=
  uniqueFirst (cov.map (fun r => r.agency_clean))

/-- The pool `coverage_cities` (source line 113). -/
def coverageCities (cov : List CovRowC) : List String :=
  uniqueFirst (cov.map (fun r => r.city_clean))

/-- Source lines 99-116: clean the rate-card name columns and run both
fuzzy matches.  The flag `agencyFuzzy` keeps (`true`, the source) or
omits (`false`) the agency-level fuzzy-match column, for the
refinement-equivalence comparison of the two pipelines. -/
def prepRate (agencyFuzzy : Bool) (cov : List CovRowC) (r : RateRow) : RateRowC :=
  { agency_name := r.agency_name
    venue_city := r.venue_city
    agency_margin := r.agency_margin
    employer_id := r.employer_id
    agency_clean := clean_name r.agency_name
    city_clean := clean_name r.venue_city
    coverage_agency_clean :=
      if agencyFuzzy then fuzzy_match (clean_name r.agency_name) (coverageAgencies cov)
      else none
    coverage_city_clean := fuzzy_match (clean_name r.venue_city) (coverageCities cov) }

/-! ## Spine construction (source lines 121-135) -/

/-- A spine row: the columns `rate_pairs` / `coverage_pairs` select. -/
structure SpineRow where
  agency_name : Option String
  agency_clean : String
  city_clean : String
  city : Option String
  employer_id : Option String
deriving DecidableEq, Repr

/-- Table `rate_pairs` (source lines 121-125): drop rows missing
`agency_name` or `coverage_city_clean`, rename `coverage_city_clean` to
`city_clean` and `venue_city` to `city`. -/
def ratePairs (rows : List RateRowC) : List SpineRow :=
  (rows.filter (fun r => r.agency_name.isSome && r.coverage_city_clean.isSome)).map
    (fun r =>
      { agency_name := r.agency_name
        agency_clean := r.agency_clean
        city_clean := r.coverage_city_clean.getD ""
        city := r.venue_city
        employer_id := r.employer_id })

/-- Table `coverage_pairs` (source lines 127-130): drop rows missing
`agency_name` or `city` (the coverage table has no
`platforms.employer_id` column, so that cell is missing). -/
def covPairs (rows : List CovRowC) : List SpineRow :=
  (rows.filter (fun r => r.agency_name.isSome && r.city.isSome)).map
    (fun r =>
      { agency_name := r.agency_name
        agency_clean := r.agency_clean
        city_clean := r.city_clean
        city := r.city
        employer_id := none })

/-- The deduplication key of the spine. -/
def spineKey (r : SpineRow) : String × String := (r.agency_clean, r.city_clean)

/-- Model of `drop_duplicates(subset=["agency_clean","city_clean"])` with the
default `keep="first"`. -/
def dropDupByKey (seen : List (String × String)) : List SpineRow → List SpineRow
  | [] => []
  | x :: xs =>
      if spineKey x ∈ seen then dropDupByKey seen xs
      else x :: dropDupByKey (spineKey x :: seen) xs

/-- Table `agency_city_spine` (source lines 132-135). -/
def buildSpine (rate : List RateRowC) (cov : List CovRowC) : List SpineRow :=
  dropDupByKey [] (ratePairs rate ++ covPairs cov)

/-! ## Enrichment (source lines 140-186) -/

/-- One row of `final`: the spine columns, the attached rate-card and
coverage fields, and the three derived columns (these start out empty
and are assigned by the later stages, as the script assigns the
DataFrame columns). -/
structure EnrRow where
  agency_name : Option String
  agency_clean : String
  city_clean : String
  city : Option String
  employer_id : Option String
  agency_margin : Option ℚ
  coverage_agency_clean : Option String
  role_category : Option String
  supply_capability : Option String
  presence_type : String
  city_avg_margin : Option ℚ
  margin_vs_city_avg : Option ℚ
deriving DecidableEq, Repr

/-- The row a spine entry yields before any join fields are attached. -/
def ofSpine (s : SpineRow) : EnrRow :=
  { agency_name := s.agency_name
    agency_clean := s.agency_clean
    city_clean := s.city_clean
    city := s.city
    employer_id := s.employer_id
    agency_margin := none
    coverage_agency_clean := none
    role_category := none
    supply_capability := none
    presence_type := ""
    city_avg_margin := none
    margin_vs_city_avg := none }

/-- Table `spine_rates` (source lines 140-146): left-join the full rate-card
table onto the spine by `(agency_clean, city_clean)` — note the right
side joins on `city_clean`, which is the raw cleaned key of the rate card.  A spine
row with no match keeps missing rate-card fields; a row with k matches
fans out into k rows. -/
def spineRates (spine : List SpineRow) (rate : List RateRowC) : List EnrRow :=
  spine.flatMap (fun s =>
    let ms := rate.filter (fun r => r.agency_clean = s.agency_clean ∧ r.city_clean = s.city_clean)
    if ms.isEmpty then [ofSpine s]
    else ms.map (fun r =>
      { ofSpine s with
          agency_margin := r.agency_margin
          coverage_agency_clean := r.coverage_agency_clean }))

/-- Table `final` before the derived columns (source lines 151-157):
left-join the coverage table onto `spine_rates` by
`(agency_clean, city_clean)`, attaching `role_category` and
`supply_capability`. -/
def attachCoverage (rows : List EnrRow) (cov : List CovRowC) : List EnrRow :=
  rows.flatMap (fun e =>
    let ms := cov.filter (fun c => c.agency_clean = e.agency_clean ∧ c.city_clean = e.city_clean)
    if ms.isEmpty then [e]
    else ms.map (fun c =>
      { e with
          role_category := c.role_category
          supply_capability := c.supply_capability }))

/-- The `np.select` of source lines 162-174: conditions in priority
order, first match wins, default `"Unknown"`. -/
def presenceOf (margin : Option ℚ) (role : Option String) : String :=
  if margin.isSome && role.isSome then "Rate Card + Coverage"
  else if margin.isSome then "Rate Card Only"
  else if role.isSome then "Coverage Only"
  else "Unknown"

/-- Assignment of the `presence_type` column (source lines 162-174). -/
def addPresence (rows : List EnrRow) : List EnrRow :=
  rows.map (fun e => { e with presence_type := presenceOf e.agency_margin e.role_category })

/-- Mean of a list of rationals; `None` on the empty list (pandas
`mean()` of an all-`NaN` group). -/
def meanQ (l : List ℚ) : Option ℚ :=
  if l = [] then none else some (l.sum / (l.length : ℚ))

/-- Column `city_avg` for one city (source lines 179-183): the mean of the
non-null margins of the rows of that city. -/
def cityAvg (rows : List EnrRow) (c : String) : Option ℚ :=
  meanQ ((rows.filter (fun r => r.city = some c)).filterMap (fun r => r.agency_margin))

/-- Source lines 179-186: `groupby("city").mean()` of the margins,
merged back onto every row by `city` (a missing city matches no group),
then `margin_vs_city_avg = agency_margin - city_avg_margin` with
missing-value propagation. -/
def addCityStats (rows : List EnrRow) : List EnrRow :=
  rows.map (fun e =>
    let ca := e.city.bind (cityAvg rows)
    { e with
        city_avg_margin := ca
        margin_vs_city_avg :=
          match e.agency_margin, ca with
          | some m, some a => some (m - a)
          | _, _ => none })

/-! ## The pipeline -/

/-- The whole reconciliation pipeline, from the two uploaded tables to
the `final` DataFrame; `agencyFuzzy` selects whether the (unused by any
join) agency-level fuzzy-match column is computed. -/
def pipeline (agencyFuzzy : Bool) (cov : List CovRowIn) (rate : List RateRowIn) : List EnrRow :=
  let covC := cov.map cleanCov
  let rateC := (ingestRatecard rate).map (prepRate agencyFuzzy covC)
  let spine := buildSpine rateC covC
  addCityStats (addPresence (attachCoverage (spineRates spine rateC) covC))

/-- Table `final` as the source computes it. -/
def finalOf (cov : List CovRowIn) (rate : List RateRowIn) : List EnrRow :=
  pipeline true cov rate

/-! ## Sidebar filters (source lines 203-209) -/

/-- The three sidebar filters: a multi-select city list and agency list
(no narrowing when `"All"` is among the selection) and a single-select
client (no narrowing on the `"All"` sentinel).  `isin` / `==` are false
on a missing cell. -/
def applyFilters (rows : List EnrRow) (selCity selAgency : List String)
    (selClient : String) : List EnrRow :=
  let d1 := if "All" ∈ selCity then rows
    else rows.filter (fun r => (r.city.map (fun c => selCity.contains c)).getD false)
  let d2 := if "All" ∈ selAgency then d1
    else d1.filter (fun r => (r.agency_name.map (fun a => selAgency.contains a)).getD false)
  if selClient = "All" then d2
  else d2.filter (fun r => r.employer_id = some selClient)

/-! ## Concrete fixtures used by counterexamples and witnesses -/

/-- Coverage table of the resolved-city-key scenario: one agency in
`"Austin"`. -/
def covFixA : List CovRowIn := [⟨some "OtherCo", some "Austin", some "Nurse", none⟩]

/-- Rate-card table of the resolved-city-key scenario: one row whose
city `"Austn"` only fuzzy-matches the coverage city. -/
def rateFixA : List RateRowIn := [⟨some "Acme", some "Austn", .num 10, none⟩]

/-- Coverage table of the unmatched-city scenario. -/
def covFixB : List CovRowIn := [⟨some "CovCo", some "Dallas", none, none⟩]

/-- Rate-card table of the unmatched-city scenario: `"Houston"` scores
far below 85 against the only coverage city `"dallas"`. -/
def rateFixB : List RateRowIn := [⟨some "Acme", some "Houston", .num 10, none⟩]

/-- Coverage table of the duplicate-agency scenario. -/
def covFixC : List CovRowIn := [⟨some "CovCo", some "Austin", none, none⟩]

/-- Rate-card table of the duplicate-agency scenario: two display
variants of one agency in one city, margins 10 and 20. -/
def rateFixC : List RateRowIn :=
  [⟨some "ABC Staffing", some "Austin", .num 10, none⟩,
   ⟨some "ABC STAFFING", some "Austin", .num 20, none⟩]

/-- Coverage table of the agency-fuzzy scenario. -/
def covFixD : List CovRowIn := [⟨some "Acme Corp", some "Austin", none, none⟩]

/-- Rate-card table of the agency-fuzzy scenario: the agency key
`"acmecorpp"` fuzzy-matches the coverage agency key `"acmecorp"`. -/
def rateFixD : List RateRowIn := [⟨some "Acme Corpp", some "Austin", .num 10, none⟩]

/-- Coverage table of the coverage-only scenario. -/
def covFixE : List CovRowIn := [⟨some "A", some "Denver", some "Nurse", none⟩]

/-- The spine stage alone, from the two uploaded tables (with the
agency-level fuzzy column computed, as in the source). -/
def spineOf (cov : List CovRowIn) (rate : List RateRowIn) : List SpineRow :=
  buildSpine ((ingestRatecard rate).map (prepRate true (cov.map cleanCov))) (cov.map cleanCov)

/-- Enriched row (before the presence stage) with a margin and no
coverage match. -/
def sampleRateOnlyBase : EnrRow :=
  { agency_name := some "Acme", agency_clean := "acme", city_clean := "austin"
    city := some "Austin", employer_id := none, agency_margin := some 10
    coverage_agency_clean := none, role_category := none, supply_capability := none
    presence_type := "", city_avg_margin := none, margin_vs_city_avg := none }

/-- Result of the presence stage on `sampleRateOnlyBase`. -/
def sampleRateOnlyRow : EnrRow :=
  { sampleRateOnlyBase with presence_type := "Rate Card Only" }

/-! ## C3: presence classification -/

/-- **C3.** For every row produced by the presence stage, the
`presence_type` column is the four-way classification of
`(agency_margin null?, role_category null?)`, evaluated in priority
order with the first match winning, and exactly one of the four
categories applies. -/
theorem c3_presence_type (rows : List EnrRow) (e : EnrRow) (he : e ∈ addPresence rows) :
    e.presence_type = presenceOf e.agency_margin e.role_category ∧
    (e.presence_type = "Rate Card + Coverage" ∨ e.presence_type = "Rate Card Only" ∨
      e.presence_type = "Coverage Only" ∨ e.presence_type = "Unknown") ∧
    (e.presence_type = "Rate Card + Coverage" ↔
      e.agency_margin.isSome ∧ e.role_category.isSome) ∧
    (e.presence_type = "Rate Card Only" ↔ e.agency_margin.isSome ∧ e.role_category = none) ∧
    (e.presence_type = "Coverage Only" ↔ e.agency_margin = none ∧ e.role_category.isSome) ∧
    (e.presence_type = "Unknown" ↔ e.agency_margin = none ∧ e.role_category = none) := by
  simp only [addPresence, List.mem_map] at he
  obtain ⟨e₀, -, rfl⟩ := he
  rcases h₁ : e₀.agency_margin with - | m <;> rcases h₂ : e₀.role_category with - | r <;>
    simp [presenceOf, h₁, h₂]

/-- Witness for C3 at a concrete row: margin present, role absent,
classified `"Rate Card Only"`. -/
theorem c3_presence_type_witness :
    (sampleRateOnlyRow.presence_type = "Rate Card Only" ↔
      sampleRateOnlyRow.agency_margin.isSome ∧ sampleRateOnlyRow.role_category = none) :=
  (c3_presence_type [sampleRateOnlyBase] sampleRateOnlyRow (by decide)).2.2.2.1

/-! ## C8: the name normaliser is total and lands in `[a-z0-9]` -/

/-- **C8.** The normaliser `clean_name` handles every input: a missing
value yields the empty key, and every character of any produced key is
a lower-case letter or a digit (the lower-casing, the strip of
everything outside `[a-z0-9 ]` and the whitespace removal leave nothing
else). -/
theorem c8_clean_name :
    clean_name none = "" ∧
    ∀ (v : Option String) (c : Char), c ∈ (clean_name v).toList →
      ('a' ≤ c ∧ c ≤ 'z') ∨ ('0' ≤ c ∧ c ≤ '9') := by
  refine ⟨rfl, fun v c hc => ?_⟩
  match v with
  | none => simp [clean_name] at hc
  | some s =>
      simp only [clean_name, String.toList, List.mem_filter, keepChar] at hc
      obtain ⟨⟨-, hk⟩, hs⟩ := hc
      simp only [Bool.or_eq_true, Bool.and_eq_true, decide_eq_true_eq] at hk
      rcases hk with (h | h) | h
      · exact Or.inl h
      · exact Or.inr h
      · simp [h] at hs

/-- Witness for C8: the character `x` of `clean_name (some "X y!?")`
is a lower-case letter. -/
theorem c8_clean_name_witness :
    ('a' ≤ 'x' ∧ 'x' ≤ 'z') ∨ ('0' ≤ 'x' ∧ 'x' ≤ '9') :=
  c8_clean_name.2 (some "X y!?") 'x' (by decide)

/-! ## C5: the fuzzy matcher -/

/-- Positivity of the score denominator for a non-empty target. -/
theorem ratioDen_pos (n c : String) (hn : n ≠ "") : 0 < ratioDen n c := by
  have hT : n.toList ≠ [] := by
    intro h
    apply hn
    cases n with
    | mk d =>
        simp only [String.toList] at h
        subst h
        rfl
  have hpos : 0 < n.toList.length := List.length_pos.mpr hT
  simp only [ratioDen]
  omega

/-- The Boolean cross-multiplied comparison agrees with the rational
score comparison (for a non-empty target). -/
theorem ratioLt_iff (n b c : String) (hn : n ≠ "") :
    ratioLt n b c = true ↔ ratio n b < ratio n c := by
  have hb := ratioDen_pos n b hn
  have hc := ratioDen_pos n c hn
  have hbq : (0 : ℚ) < (ratioDen n b : ℚ) := by exact_mod_cast hb
  have hcq : (0 : ℚ) < (ratioDen n c : ℚ) := by exact_mod_cast hc
  simp only [ratioLt, if_neg hb.ne', if_neg hc.ne', ratio]
  rw [div_lt_div_iff₀ hbq hcq, decide_eq_true_eq]
  constructor
  · intro h; exact_mod_cast h
  · intro h; exact_mod_cast h

/-- The Boolean threshold test agrees with the rational comparison
`FUZZY_THRESHOLD ≤ ratio` (for a non-empty target). -/
theorem ratioGeThreshold_iff (n c : String) (hn : n ≠ "") :
    ratioGeThreshold n c = true ↔ (FUZZY_THRESHOLD : ℚ) ≤ ratio n c := by
  have hc := ratioDen_pos n c hn
  have hcq : (0 : ℚ) < (ratioDen n c : ℚ) := by exact_mod_cast hc
  simp only [ratioGeThreshold, if_neg hc.ne', ratio]
  rw [le_div_iff₀ hcq, decide_eq_true_eq]
  constructor
  · intro h; exact_mod_cast h
  · intro h; exact_mod_cast h

/-- The scan result is the seed or one of the scanned candidates. -/
theorem bestFrom_eq_or_mem (n : String) (l : List String) :
    ∀ b, bestFrom n b l = b ∨ bestFrom n b l ∈ l := by
  induction l with
  | nil => exact fun b => Or.inl rfl
  | cons c cs ih =>
      intro b
      simp only [bestFrom]
      by_cases h : ratioLt n b c = true
      · rw [if_pos h]
        rcases ih c with h' | h'
        · exact Or.inr (by simp [h'])
        · exact Or.inr (by simp [h'])
      · rw [if_neg h]
        rcases ih b with h' | h'
        · exact Or.inl h'
        · exact Or.inr (by simp [h'])

/-- The scan result scores at least the seed and every candidate. -/
theorem ratio_le_bestFrom (n : String) (hn : n ≠ "") (l : List String) :
    ∀ b, ratio n b ≤ ratio n (bestFrom n b l) ∧
      ∀ c ∈ l, ratio n c ≤ ratio n (bestFrom n b l) := by
  induction l with
  | nil => exact fun b => ⟨le_refl _, by simp⟩
  | cons c cs ih =>
      intro b
      simp only [bestFrom]
      by_cases h : ratioLt n b c = true
      · rw [if_pos h]
        have hlt := (ratioLt_iff n b c hn).mp h
        obtain ⟨h1, h2⟩ := ih c
        refine ⟨le_trans hlt.le h1, fun d hd => ?_⟩
        rcases List.mem_cons.mp hd with rfl | hd'
        · exact h1
        · exact h2 d hd'
      · rw [if_neg h]
        have hle : ratio n c ≤ ratio n b :=
          not_lt.mp (fun hcon => h ((ratioLt_iff n b c hn).mpr hcon))
        obtain ⟨h1, h2⟩ := ih b
        refine ⟨h1, fun d hd => ?_⟩
        rcases List.mem_cons.mp hd with rfl | hd'
        · exact le_trans hle h1
        · exact h2 d hd'

/-- **C5.** The fuzzy matcher returns `none` on an empty target or an
empty pool; when it returns a candidate, that candidate belongs to the
pool, scores at least the threshold 85 and maximises the similarity
ratio over the pool; when every candidate scores below 85 it returns
`none`; and on the concrete scenarios, `"austn"` matches `"austin"` in
`["austin", "dallas"]` and matches nothing in `["houston", "dallas"]`. -/
theorem c5_fuzzy_match :
    (∀ cs, fuzzy_match "" cs = none) ∧
    (∀ n, fuzzy_match n [] = none) ∧
    (∀ n cs c, fuzzy_match n cs = some c →
      c ∈ cs ∧ (FUZZY_THRESHOLD : ℚ) ≤ ratio n c ∧ ∀ d ∈ cs, ratio n d ≤ ratio n c) ∧
    (∀ n cs, n ≠ "" → cs ≠ [] → (∀ d ∈ cs, ratio n d < (FUZZY_THRESHOLD : ℚ)) →
      fuzzy_match n cs = none) ∧
    fuzzy_match "austn" ["austin", "dallas"] = some "austin" ∧
    fuzzy_match "austn" ["houston", "dallas"] = none := by
  refine ⟨fun cs => by simp [fuzzy_match], fun n => by simp [fuzzy_match],
    fun n cs c h => ?_, fun n cs hn hcs hbelow => ?_, by decide, by decide⟩
  · by_cases hg : n = "" ∨ cs = []
    · simp [fuzzy_match, hg] at h
    · push_neg at hg
      obtain ⟨hn, hcs⟩ := hg
      obtain ⟨c₀, cs', rfl⟩ := List.exists_cons_of_ne_nil hcs
      simp only [fuzzy_match, if_neg (show ¬(n = "" ∨ c₀ :: cs' = []) by simp [hn]),
        extractOne] at h
      by_cases ht : ratioGeThreshold n (bestFrom n c₀ cs') = true
      · rw [if_pos ht] at h
        obtain rfl := Option.some.inj h
        refine ⟨?_, (ratioGeThreshold_iff n _ hn).mp ht, ?_⟩
        · rcases bestFrom_eq_or_mem n cs' c₀ with h' | h' <;> simp [h']
        · intro d hd
          obtain ⟨h1, h2⟩ := ratio_le_bestFrom n hn cs' c₀
          rcases List.mem_cons.mp hd with rfl | hd'
          · exact h1
          · exact h2 d hd'
      · rw [if_neg ht] at h
        exact absurd h (by simp)
  · obtain ⟨c₀, cs', rfl⟩ := List.exists_cons_of_ne_nil hcs
    simp only [fuzzy_match, if_neg (show ¬(n = "" ∨ c₀ :: cs' = []) by simp [hn]),
      extractOne]
    have hmem : bestFrom n c₀ cs' ∈ c₀ :: cs' := by
      rcases bestFrom_eq_or_mem n cs' c₀ with h' | h' <;> simp [h']
    have hb := hbelow _ hmem
    rw [if_neg (fun ht => absurd ((ratioGeThreshold_iff n _ hn).mp ht) (not_le.mpr hb))]

/-- Witness for C5: the accepted-match characterisation applied at the
concrete scenario, and the below-threshold case applied at its pool. -/
theorem c5_fuzzy_match_witness :
    ("austin" ∈ ["austin", "dallas"] ∧
      (FUZZY_THRESHOLD : ℚ) ≤ ratio "austn" "austin" ∧
      ∀ d ∈ ["austin", "dallas"], ratio "austn" d ≤ ratio "austn" "austin") :=
  c5_fuzzy_match.2.2.1 "austn" ["austin", "dallas"] "austin" (by decide)

/-! ## C9: the sidebar filters are pure conjunctive narrowings -/

/-- City predicate of the filter surface: `"All"` selects every row,
otherwise the row city must be among the selected ones (a missing city
matches nothing). -/
def cityFilterPred (selCity : List String) (r : EnrRow) : Bool :=
  if "All" ∈ selCity then true else (r.city.map (fun c => selCity.contains c)).getD false

/-- Agency predicate of the filter surface. -/
def agencyFilterPred (selAgency : List String) (r : EnrRow) : Bool :=
  if "All" ∈ selAgency then true
  else (r.agency_name.map (fun a => selAgency.contains a)).getD false

/-- Client predicate of the filter surface. -/
def clientFilterPred (selClient : String) (r : EnrRow) : Bool :=
  if selClient = "All" then true else r.employer_id = some selClient

/-- **C9.** Applying the three sidebar filters returns exactly the rows
satisfying the conjunction of the selected predicates (with the `"All"`
sentinel selecting everything on its dimension); the result is a
sublist of the underlying table, which is itself never mutated, and the
all-`"All"` selection returns every row. -/
theorem c9_filters (rows : List EnrRow) (selc sela : List String) (selcl : String) :
    applyFilters rows selc sela selcl =
      rows.filter (fun r =>
        cityFilterPred selc r && agencyFilterPred sela r && clientFilterPred selcl r) ∧
    (applyFilters rows selc sela selcl).Sublist rows ∧
    ("All" ∈ selc → "All" ∈ sela → selcl = "All" →
      applyFilters rows selc sela selcl = rows) := by
  have hmain : applyFilters rows selc sela selcl =
      rows.filter (fun r =>
        cityFilterPred selc r && agencyFilterPred sela r && clientFilterPred selcl r) := by
    unfold applyFilters cityFilterPred agencyFilterPred clientFilterPred
    by_cases h1 : "All" ∈ selc <;> by_cases h2 : "All" ∈ sela <;> by_cases h3 : selcl = "All" <;>
      simp [h1, h2, h3, List.filter_filter, Bool.and_comm, Bool.and_left_comm, Bool.and_assoc]
  exact ⟨hmain, hmain ▸ List.filter_sublist rows,
    fun a b c => by simp [applyFilters, a, b, c]⟩

/-- Witness for C9: the all-`"All"` selection on a one-row table
returns that row. -/
theorem c9_filters_witness :
    applyFilters [sampleRateOnlyRow] ["All"] ["All"] "All" = [sampleRateOnlyRow] :=
  (c9_filters [sampleRateOnlyRow] ["All"] ["All"] "All").2.2 (by decide) (by decide) rfl

/-! ## C7: margin coercion and the null-margin filter -/

/-- Rate-card table with one parseable and one unparseable margin. -/
def rateFixMixed : List RateRowIn :=
  [⟨some "Acme", some "Austin", .num 10, none⟩,
   ⟨some "Bravo", some "Austin", .str "n/a", none⟩]

/-- Coerced image of the parseable row of `rateFixMixed`. -/
def rateFixMixedRow : RateRow := ⟨some "Acme", some "Austin", some 10, none⟩

/-- **C7.** At rate-card ingestion every margin cell is coerced to a
number or to null, and exactly the rows with a non-null coerced margin
survive; every surviving row has a numeric margin; the coverage table
loses no row to any numeric coercion; and the enrichment join never
drops a matching rate-card row on account of its margin — the filter on
null margins happens at ingestion only. -/
theorem c7_margin_ingestion :
    (∀ rows : List RateRowIn, ∀ r ∈ ingestRatecard rows, r.agency_margin.isSome) ∧
    (∀ (rows : List RateRowIn) (r' : RateRow),
      r' ∈ ingestRatecard rows ↔
        ∃ r ∈ rows, (toNumeric r.agency_margin).isSome ∧ r' = coerceMargin r) ∧
    (∀ cov : List CovRowIn, (cov.map cleanCov).length = cov.length) ∧
    (∀ (spine : List SpineRow) (rate : List RateRowC) (s : SpineRow) (r : RateRowC),
      s ∈ spine → r ∈ rate →
      r.agency_clean = s.agency_clean → r.city_clean = s.city_clean →
      ∃ e ∈ spineRates spine rate, e.agency_margin = r.agency_margin) := by
  refine ⟨fun rows r hr => ?_, fun rows r' => ?_, fun cov => by simp, ?_⟩
  · exact (List.mem_filter.mp hr).2
  · simp only [ingestRatecard, List.mem_filter, List.mem_map]
    constructor
    · rintro ⟨⟨a, ha, rfl⟩, hs⟩
      exact ⟨a, ha, hs, rfl⟩
    · rintro ⟨a, ha, hs, rfl⟩
      exact ⟨⟨a, ha, rfl⟩, hs⟩
  · intro spine rate s r hs hr hk1 hk2
    have hmem : r ∈ rate.filter
        (fun t => t.agency_clean = s.agency_clean ∧ t.city_clean = s.city_clean) := by
      simp [List.mem_filter, hr, hk1, hk2]
    have hne : ¬((rate.filter
        (fun t => t.agency_clean = s.agency_clean ∧ t.city_clean = s.city_clean)).isEmpty = true) := by
      intro h
      exact List.ne_nil_of_mem hmem (List.isEmpty_iff.mp h)
    refine ⟨{ ofSpine s with
        agency_margin := r.agency_margin
        coverage_agency_clean := r.coverage_agency_clean }, ?_, rfl⟩
    simp only [spineRates]
    apply List.mem_flatMap.mpr
    refine ⟨s, hs, ?_⟩
    rw [if_neg hne]
    exact List.mem_map_of_mem _ hmem

/-- Witness for C7: the surviving-row characterisation applied to a
concrete two-row upload with one unparseable margin. -/
theorem c7_margin_ingestion_witness :
    ∃ r ∈ rateFixMixed, (toNumeric r.agency_margin).isSome ∧ rateFixMixedRow = coerceMargin r :=
  (c7_margin_ingestion.2.1 rateFixMixed rateFixMixedRow).mp (by decide)

/-! ## C1: an approximately matched city key never re-joins its rate card

The spine stores the resolved coverage-side key, but the rate-card left
join matches the rate-card rows by their raw `city_clean`; whenever the
fuzzy match was genuinely approximate the two differ, so no rate-card
fields attach. -/

/-- **C1 (failing evaluation).** In the fixture, the rate-card city
`"Austn"` fuzzy-matches the coverage key `"austin"` (score `1000/11 ≥ 85`)
and the resolved key differs from the raw key; the spine entry built
from that rate-card row carries the resolved key `"austin"`, yet its
`agency_margin` is null and its presence type is `"Unknown"` — the
enrichment join found no rate-card row under the resolved key. -/
theorem c1_resolved_key_join_miss :
    fuzzy_match (clean_name (some "Austn")) (coverageCities (covFixA.map cleanCov)) =
      some "austin" ∧
    clean_name (some "Austn") ≠ "austin" ∧
    ((finalOf covFixA rateFixA).filter (fun r => r.agency_clean = "acme")).map
        (fun r => (r.city_clean, r.agency_margin, r.presence_type)) =
      [("austin", none, "Unknown")] := by
  refine ⟨by decide, by decide, by decide⟩

/-! ## C2: which rows contribute a pair to the spine -/

/-- **C2 (counterexample).** A rate-card row with non-missing agency
name `"Acme"` and non-missing city name `"Houston"` contributes nothing
to the spine when its city fails the fuzzy match against the coverage
pool `["dallas"]`: the spine of the fixture holds only the coverage
pair, refuting the claim that every source row with non-missing agency
and city names contributes its pair. -/
theorem c2_unmatched_city_dropped :
    (rateFixB.map (fun r => (r.agency_name.isSome, r.venue_city.isSome))) = [(true, true)] ∧
    (spineOf covFixB rateFixB).map spineKey = [("covco", "dallas")] ∧
    ¬∃ s ∈ spineOf covFixB rateFixB, s.agency_clean = "acme" := by
  refine ⟨by decide, by decide, by decide⟩

/-! ## C6: no aggregation collapses duplicate (agency, city) rows -/

/-- **C6 (counterexample).** With two rate-card rows for the agency key
`"abcstaffing"` in `"austin"` (margins 10 and 20), the output table
holds two rows for that pair — not one — and no row carries the mean
margin 15: the pipeline performs no (agency, city) aggregation. -/
theorem c6_no_aggregated_record :
    (((finalOf covFixC rateFixC).filter
        (fun r => r.agency_clean = "abcstaffing" ∧ r.city_clean = "austin")).map
          (fun r => r.agency_margin)).length = 2 ∧
    ∀ m ∈ ((finalOf covFixC rateFixC).filter
        (fun r => r.agency_clean = "abcstaffing" ∧ r.city_clean = "austin")).map
          (fun r => r.agency_margin), m ≠ some (15 : ℚ) := by
  refine ⟨by decide, by decide⟩

/-- **C6 (amended).** The two rate-card rows for `"ABC Staffing"` /
`"ABC STAFFING"` in `"Austin"` collapse to a single spine entry, but
the enrichment join fans that entry back out: the output table carries
exactly two records for the pair, with the original margins 10 and 20
and the display strings of the first-seen row. -/
theorem c6_fanout_rows :
    ((spineOf covFixC rateFixC).filter (fun s => s.agency_clean = "abcstaffing")).length = 1 ∧
    ((finalOf covFixC rateFixC).filter
        (fun r => r.agency_clean = "abcstaffing" ∧ r.city_clean = "austin")).map
          (fun r => (r.agency_name, r.city, r.agency_margin)) =
      [(some "ABC Staffing", some "Austin", some 10),
       (some "ABC Staffing", some "Austin", some 20)] := by
  refine ⟨by decide, by decide⟩

/-! ## C10: the agency-level fuzzy column -/

/-- **C10 (counterexample).** The agency-level fuzzy-match column is
carried through the joins into the output table, so the pipeline with
the agency fuzzy step removed does not produce an identical export: on
the fixture the two final tables differ (in exactly that column). -/
theorem c10_export_differs :
    (pipeline true covFixD rateFixD).map (fun r => r.coverage_agency_clean) =
      [some "acmecorp", none] ∧
    (pipeline false covFixD rateFixD).map (fun r => r.coverage_agency_clean) =
      [none, none] ∧
    pipeline true covFixD rateFixD ≠ pipeline false covFixD rateFixD := by
  have h1 : (pipeline true covFixD rateFixD).map (fun r => r.coverage_agency_clean) =
      [some "acmecorp", none] := by decide
  have h2 : (pipeline false covFixD rateFixD).map (fun r => r.coverage_agency_clean) =
      [none, none] := by decide
  refine ⟨h1, h2, fun h => ?_⟩
  rw [h, h2] at h1
  exact absurd h1 (by decide)

/-! ## C2 (amended): the spine is the deduplicated union of the
contributing pairs -/

/-- Deduplication only removes rows. -/
theorem mem_of_mem_dropDupByKey :
    ∀ (l : List SpineRow) (seen : List (String × String)) (x : SpineRow),
      x ∈ dropDupByKey seen l → x ∈ l := by
  intro l
  induction l with
  | nil => intro seen x h; simp [dropDupByKey] at h
  | cons y ys ih =>
      intro seen x h
      simp only [dropDupByKey] at h
      by_cases hy : spineKey y ∈ seen
      · rw [if_pos hy] at h
        exact List.mem_cons_of_mem _ (ih _ _ h)
      · rw [if_neg hy] at h
        rcases List.mem_cons.mp h with rfl | h'
        · exact List.mem_cons_self _ _
        · exact List.mem_cons_of_mem _ (ih _ _ h')

/-- Keys surviving deduplication: exactly the incoming keys not in the
seen set. -/
theorem mem_key_dropDupByKey :
    ∀ (l : List SpineRow) (seen : List (String × String)) (k : String × String),
      k ∈ (dropDupByKey seen l).map spineKey ↔ k ∈ l.map spineKey ∧ k ∉ seen := by
  intro l
  induction l with
  | nil => intro seen k; simp [dropDupByKey]
  | cons y ys ih =>
      intro seen k
      simp only [dropDupByKey]
      by_cases hy : spineKey y ∈ seen
      · rw [if_pos hy, ih]
        simp only [List.map_cons, List.mem_cons]
        constructor
        · rintro ⟨h1, h2⟩
          exact ⟨Or.inr h1, h2⟩
        · rintro ⟨h1 | h1, h2⟩
          · subst h1; exact absurd hy h2
          · exact ⟨h1, h2⟩
      · rw [if_neg hy]
        simp only [List.map_cons, List.mem_cons]
        rw [ih]
        simp only [List.mem_cons, not_or]
        constructor
        · rintro (rfl | ⟨h1, h2, h3⟩)
          · exact ⟨Or.inl rfl, hy⟩
          · exact ⟨Or.inr h1, h3⟩
        · rintro ⟨rfl | h1, h2⟩
          · exact Or.inl rfl
          · by_cases hk : k = spineKey y
            · exact Or.inl hk
            · exact Or.inr ⟨h1, hk, h2⟩

/-- Deduplicated keys are pairwise distinct. -/
theorem nodup_key_dropDupByKey :
    ∀ (l : List SpineRow) (seen : List (String × String)),
      ((dropDupByKey seen l).map spineKey).Nodup := by
  intro l
  induction l with
  | nil => intro seen; simp [dropDupByKey]
  | cons y ys ih =>
      intro seen
      simp only [dropDupByKey]
      by_cases hy : spineKey y ∈ seen
      · rw [if_pos hy]; exact ih seen
      · rw [if_neg hy]
        simp only [List.map_cons, List.nodup_cons]
        refine ⟨fun hmem => ?_, ih _⟩
        exact ((mem_key_dropDupByKey ys _ _).mp hmem).2 (List.mem_cons_self _ _)

/-- Keys contributed by the rate-card side of the spine. -/
theorem ratePairs_key_mem (rate : List RateRowC) (a c : String) :
    (a, c) ∈ (ratePairs rate).map spineKey ↔
      ∃ r ∈ rate, r.agency_name.isSome ∧ r.agency_clean = a ∧
        r.coverage_city_clean = some c := by
  simp only [ratePairs, List.map_map, List.mem_map, List.mem_filter, Function.comp,
    Bool.and_eq_true]
  constructor
  · rintro ⟨r, ⟨hm, h1, h2⟩, hk⟩
    cases hcc : r.coverage_city_clean with
    | none => rw [hcc] at h2; simp at h2
    | some c' =>
        simp only [spineKey, hcc, Option.getD_some, Prod.mk.injEq] at hk
        exact ⟨r, hm, h1, hk.1, by rw [hcc, hk.2]⟩
  · rintro ⟨r, hm, h1, h2, h3⟩
    exact ⟨r, ⟨hm, h1, by simp [h3]⟩, by simp [spineKey, h3, h2]⟩

/-- Keys contributed by the coverage side of the spine. -/
theorem covPairs_key_mem (cov : List CovRowC) (a c : String) :
    (a, c) ∈ (covPairs cov).map spineKey ↔
      ∃ r ∈ cov, r.agency_name.isSome ∧ r.city.isSome ∧
        r.agency_clean = a ∧ r.city_clean = c := by
  simp only [covPairs, List.map_map, List.mem_map, List.mem_filter, Function.comp,
    Bool.and_eq_true]
  constructor
  · rintro ⟨r, ⟨hm, h1, h2⟩, hk⟩
    simp only [spineKey, Prod.mk.injEq] at hk
    exact ⟨r, hm, h1, h2, hk.1, hk.2⟩
  · rintro ⟨r, hm, h1, h2, h3, h4⟩
    exact ⟨r, ⟨hm, h1, h2⟩, by simp [spineKey, h3, h4]⟩

/-- **C2 (amended).** The spine never repeats an (agency key, city key)
pair, and it holds exactly the pairs of: rate-card rows (surviving
margin ingestion) with a non-missing agency name whose cleaned city
fuzzy-matches a coverage city, contributing under the resolved
coverage-side key; and coverage rows with non-missing agency and city
names, contributing their own cleaned pair.  Rate-card rows whose city
fails the fuzzy match contribute nothing. -/
theorem c2_spine_characterization (cov : List CovRowIn) (rate : List RateRowIn) :
    ((spineOf cov rate).map spineKey).Nodup ∧
    ∀ a c, (a, c) ∈ (spineOf cov rate).map spineKey ↔
      ((∃ r ∈ ingestRatecard rate, r.agency_name.isSome ∧
          clean_name r.agency_name = a ∧
          fuzzy_match (clean_name r.venue_city) (coverageCities (cov.map cleanCov)) = some c) ∨
       (∃ r ∈ cov, r.agency_name.isSome ∧ r.city.isSome ∧
          clean_name r.agency_name = a ∧ clean_name r.city = c)) := by
  constructor
  · exact nodup_key_dropDupByKey _ []
  · intro a c
    show (a, c) ∈ (dropDupByKey [] _).map spineKey ↔ _
    rw [mem_key_dropDupByKey]
    simp only [List.not_mem_nil, not_false_iff, and_true, List.map_append, List.mem_append]
    rw [ratePairs_key_mem, covPairs_key_mem]
    constructor
    · rintro (h | h)
      · left
        obtain ⟨r, hr, h1, h2, h3⟩ := h
        obtain ⟨r₀, hr₀, rfl⟩ := List.mem_map.mp hr
        exact ⟨r₀, hr₀, h1, h2, h3⟩
      · right
        obtain ⟨r, hr, h1, h2, h3, h4⟩ := h
        obtain ⟨r₀, hr₀, rfl⟩ := List.mem_map.mp hr
        exact ⟨r₀, hr₀, h1, h2, h3, h4⟩
    · rintro (⟨r₀, hr₀, h1, h2, h3⟩ | ⟨r₀, hr₀, h1, h2, h3, h4⟩)
      · exact Or.inl ⟨prepRate true (cov.map cleanCov) r₀,
          List.mem_map_of_mem _ hr₀, h1, h2, h3⟩
      · exact Or.inr ⟨cleanCov r₀, List.mem_map_of_mem _ hr₀, h1, h2, h3, h4⟩

/-- Witness for C2: the key `("acme", "austin")` of the fixture spine
traces back to one of the two contribution forms. -/
theorem c2_spine_characterization_witness :
    (∃ r ∈ ingestRatecard rateFixA, r.agency_name.isSome ∧
        clean_name r.agency_name = "acme" ∧
        fuzzy_match (clean_name r.venue_city)
          (coverageCities (covFixA.map cleanCov)) = some "austin") ∨
    (∃ r ∈ covFixA, r.agency_name.isSome ∧ r.city.isSome ∧
        clean_name r.agency_name = "acme" ∧ clean_name r.city = "austin") :=
  ((c2_spine_characterization covFixA rateFixA).2 "acme" "austin").mp (by decide)

/-! ## C4: the city average and the margin delta -/

/-- The enriched table before the derived city columns are attached. -/
def enrichedOf (cov : List CovRowIn) (rate : List RateRowIn) : List EnrRow :=
  addPresence (attachCoverage
    (spineRates (spineOf cov rate)
      ((ingestRatecard rate).map (prepRate true (cov.map cleanCov))))
    (cov.map cleanCov))

/-- The pipeline output is the enriched table with the city columns
attached. -/
theorem finalOf_eq_addCityStats (cov : List CovRowIn) (rate : List RateRowIn) :
    finalOf cov rate = addCityStats (enrichedOf cov rate) := rfl

/-- A successful fuzzy match forces a non-empty target. -/
theorem fuzzy_match_target_ne (n : String) (p : List String) (c : String)
    (h : fuzzy_match n p = some c) : n ≠ "" := by
  intro hn
  subst hn
  simp [fuzzy_match] at h

/-- Every spine entry carries a non-missing display city. -/
theorem spineOf_city_isSome (cov : List CovRowIn) (rate : List RateRowIn) :
    ∀ s ∈ spineOf cov rate, s.city.isSome := by
  intro s hs
  have hs' := mem_of_mem_dropDupByKey _ _ _ hs
  rcases List.mem_append.mp hs' with h | h
  · simp only [ratePairs, List.mem_map, List.mem_filter, Bool.and_eq_true] at h
    obtain ⟨r, ⟨hr, h1, h2⟩, rfl⟩ := h
    obtain ⟨r₀, hr₀, rfl⟩ := hr
    simp only [prepRate] at h2 ⊢
    cases hv : r₀.venue_city with
    | some v => simp
    | none =>
        rw [hv] at h2
        simp [clean_name, fuzzy_match] at h2
  · simp only [covPairs, List.mem_map, List.mem_filter, Bool.and_eq_true] at h
    obtain ⟨r, ⟨hr, h1, h2⟩, rfl⟩ := h
    exact h2

/-- Every row of the rate-card join inherits the city of some spine
entry. -/
theorem spineRates_mem_city (spine : List SpineRow) (rate : List RateRowC) :
    ∀ e ∈ spineRates spine rate, ∃ s ∈ spine, e.city = s.city := by
  intro e he
  simp only [spineRates] at he
  obtain ⟨s, hs, he⟩ := List.mem_flatMap.mp he
  refine ⟨s, hs, ?_⟩
  split at he
  · simp only [List.mem_singleton] at he
    subst he; rfl
  · obtain ⟨r, hr, rfl⟩ := List.mem_map.mp he
    rfl

/-- Every row of the coverage join inherits city and margin from some
row of its input. -/
theorem attachCoverage_mem_fields (rows : List EnrRow) (cov : List CovRowC) :
    ∀ e ∈ attachCoverage rows cov,
      ∃ e₀ ∈ rows, e.city = e₀.city ∧ e.agency_margin = e₀.agency_margin := by
  intro e he
  simp only [attachCoverage] at he
  obtain ⟨e₀, h₀, he⟩ := List.mem_flatMap.mp he
  refine ⟨e₀, h₀, ?_⟩
  split at he
  · simp only [List.mem_singleton] at he
    subst he; exact ⟨rfl, rfl⟩
  · obtain ⟨r, hr, rfl⟩ := List.mem_map.mp he
    exact ⟨rfl, rfl⟩

/-- The presence stage preserves city and margin. -/
theorem addPresence_mem_fields (rows : List EnrRow) :
    ∀ e ∈ addPresence rows,
      ∃ e₀ ∈ rows, e.city = e₀.city ∧ e.agency_margin = e₀.agency_margin := by
  intro e he
  obtain ⟨e₀, h₀, rfl⟩ := List.mem_map.mp he
  exact ⟨e₀, h₀, rfl, rfl⟩

/-- Every enriched row carries a non-missing display city. -/
theorem enrichedOf_city_isSome (cov : List CovRowIn) (rate : List RateRowIn) :
    ∀ e ∈ enrichedOf cov rate, e.city.isSome := by
  intro e he
  obtain ⟨e₁, h₁, hc₁, -⟩ := addPresence_mem_fields _ e he
  obtain ⟨e₂, h₂, hc₂, -⟩ := attachCoverage_mem_fields _ _ e₁ h₁
  obtain ⟨s, hs, hc₃⟩ := spineRates_mem_city _ _ e₂ h₂
  rw [hc₁, hc₂, hc₃]
  exact spineOf_city_isSome cov rate s hs

/-- The city-average of a city is untouched by attaching the city
columns (the stage preserves both the city and the margin column). -/
theorem cityAvg_addCityStats (rows : List EnrRow) (c : String) :
    cityAvg (addCityStats rows) c = cityAvg rows c := by
  unfold cityAvg addCityStats
  rw [List.filter_map, List.filterMap_map]
  rfl

/-- Structure of a row of the city-columns stage: it is an input row
with the two derived fields attached. -/
theorem addCityStats_mem (rows : List EnrRow) :
    ∀ e ∈ addCityStats rows,
      ∃ e₀ ∈ rows,
        e.city = e₀.city ∧ e.agency_margin = e₀.agency_margin ∧
        e.city_avg_margin = e₀.city.bind (cityAvg rows) ∧
        e.margin_vs_city_avg =
          (match e₀.agency_margin, e₀.city.bind (cityAvg rows) with
            | some m, some a => some (m - a)
            | _, _ => none) := by
  intro e he
  obtain ⟨e₀, h₀, rfl⟩ := List.mem_map.mp he
  exact ⟨e₀, h₀, rfl, rfl, rfl, rfl⟩

/-- A non-empty margin list has a mean. -/
theorem meanQ_isSome (l : List ℚ) (h : l ≠ []) : (meanQ l).isSome := by
  simp [meanQ, h]

set_option maxHeartbeats 2000000 in
/-- **C4.** Every output row has a city; its `city_avg_margin` equals
the mean of the non-null margins over the output rows of that city
(the enriched, pre-aggregation population — there is no later
aggregation), broadcast identically to every row of the city; and
`margin_vs_city_avg` is the margin minus that average, null exactly
when the row margin itself is null. -/
theorem c4_city_average (cov : List CovRowIn) (rate : List RateRowIn) (e : EnrRow)
    (he : e ∈ finalOf cov rate) :
    (∃ c, e.city = some c) ∧
    e.city_avg_margin = e.city.bind (cityAvg (finalOf cov rate)) ∧
    (e.margin_vs_city_avg = none ↔ e.agency_margin = none) ∧
    (∀ m a, e.agency_margin = some m → e.city_avg_margin = some a →
      e.margin_vs_city_avg = some (m - a)) ∧
    (∀ e', e' ∈ finalOf cov rate → e'.city = e.city →
      e'.city_avg_margin = e.city_avg_margin) := by
  rw [finalOf_eq_addCityStats] at he
  obtain ⟨e₀, h₀, hc, hm, hca, hmv⟩ := addCityStats_mem _ e he
  have hcity : e₀.city.isSome := enrichedOf_city_isSome cov rate e₀ h₀
  obtain ⟨c, hc₀⟩ := Option.isSome_iff_exists.mp hcity
  have hbind : e.city_avg_margin = e.city.bind (cityAvg (finalOf cov rate)) := by
    rw [hca, hc, finalOf_eq_addCityStats]
    cases e₀.city with
    | none => rfl
    | some c' => simpa using (cityAvg_addCityStats (enrichedOf cov rate) c').symm
  refine ⟨⟨c, by rw [hc, hc₀]⟩, hbind, ?_, ?_, ?_⟩
  · constructor
    · intro hnone
      rw [hm]
      cases hmm : e₀.agency_margin with
      | none => rfl
      | some m =>
          exfalso
          have hlist : ((enrichedOf cov rate).filter
              (fun r => r.city = some c)).filterMap (fun r => r.agency_margin) ≠ [] := by
            intro hnil
            have hmem : m ∈ ((enrichedOf cov rate).filter
                (fun r => r.city = some c)).filterMap (fun r => r.agency_margin) :=
              List.mem_filterMap.mpr ⟨e₀, List.mem_filter.mpr ⟨h₀, by simp [hc₀]⟩, hmm⟩
            rw [hnil] at hmem
            exact List.not_mem_nil m hmem
          have hsome : (e₀.city.bind (cityAvg (enrichedOf cov rate))).isSome := by
            rw [hc₀]
            exact meanQ_isSome _ hlist
          rw [hmv, hmm] at hnone
          obtain ⟨a, ha⟩ := Option.isSome_iff_exists.mp hsome
          rw [ha] at hnone
          exact Option.some_ne_none _ hnone
    · intro hnone
      have h0 : e₀.agency_margin = none := hm.symm.trans hnone
      rw [hmv, h0]
  · intro m a h1 h2
    have h1' : e₀.agency_margin = some m := hm.symm.trans h1
    have h2' : e₀.city.bind (cityAvg (enrichedOf cov rate)) = some a := hca.symm.trans h2
    rw [hmv, h1', h2']
  · intro e' he' hcc
    rw [finalOf_eq_addCityStats] at he'
    obtain ⟨e₀', h₀', hc', -, hca', -⟩ := addCityStats_mem _ e' he'
    rw [hca', hca, ← hc', hcc, hc]

/-- The single output row of the coverage-only fixture `covFixE`. -/
def denverRow : EnrRow :=
  { agency_name := some "A", agency_clean := "a", city_clean := "denver"
    city := some "Denver", employer_id := none, agency_margin := none
    coverage_agency_clean := none, role_category := some "Nurse"
    supply_capability := none, presence_type := "Coverage Only"
    city_avg_margin := none, margin_vs_city_avg := none }

/-- Witness for C4 at the coverage-only fixture: the single output row
has city `"Denver"`, a null margin, a null city average (the mean over
an empty margin population) and hence a null margin delta. -/
theorem c4_city_average_witness :
    (∃ c, denverRow.city = some c) ∧
    denverRow.city_avg_margin = denverRow.city.bind (cityAvg (finalOf covFixE [])) ∧
    (denverRow.margin_vs_city_avg = none ↔ denverRow.agency_margin = none) ∧
    (∀ m a, denverRow.agency_margin = some m → denverRow.city_avg_margin = some a →
      denverRow.margin_vs_city_avg = some (m - a)) ∧
    (∀ e', e' ∈ finalOf covFixE [] → e'.city = denverRow.city →
      e'.city_avg_margin = denverRow.city_avg_margin) :=
  c4_city_average covFixE [] denverRow (by decide)

/-! ## C10 (amended): the agency-level fuzzy column feeds no stage -/

/-- Removal of the agency-level fuzzy column from a prepared rate-card
row (the pipeline without the agency fuzzy-matching step). -/
def eraseRateCAC (r : RateRowC) : RateRowC :=
  { r with coverage_agency_clean := none }

/-- Removal of the agency-level fuzzy column from an output row. -/
def eraseEnrCAC (e : EnrRow) : EnrRow :=
  { e with coverage_agency_clean := none }

/-- The no-fuzzy preparation is the fuzzy preparation with the column
removed. -/
theorem prepRate_false_eq (cov : List CovRowC) (r : RateRow) :
    prepRate false cov r = eraseRateCAC (prepRate true cov r) := rfl

/-- The spine selection reads nothing from the agency fuzzy column. -/
theorem ratePairs_erase (l : List RateRowC) :
    ratePairs (l.map eraseRateCAC) = ratePairs l := by
  unfold ratePairs
  rw [List.filter_map, List.map_map]
  rfl

/-- A filter whose predicate ignores the agency fuzzy column commutes
with its removal. -/
theorem filter_erase_comm {α : Type} (g : α → α) (q : α → Bool)
    (hq : ∀ r, q (g r) = q r) (l : List α) :
    (l.map g).filter q = (l.filter q).map g := by
  rw [List.filter_map]
  exact congrArg (List.map g) (List.filter_congr (fun x _ => hq x))

/-- The left-join branch over an already-mapped match list commutes
with the two removals. -/
theorem branch_map_erase {α β : Type} (g : α → α) (h : β → β) {d : β} {f : α → β}
    {fl : List α} (hd : h d = d) (hgf : ∀ r, f (g r) = h (f r)) :
    (if ((fl.map g).isEmpty) then [d] else (fl.map g).map f) =
      (if fl.isEmpty then [d] else fl.map f).map h := by
  cases fl with
  | nil => simp [hd]
  | cons x xs =>
      simp only [List.map_cons, List.isEmpty_cons, List.map_map, Bool.false_eq_true,
        if_false]
      rw [hgf x]
      exact congrArg (List.cons (h (f x))) (List.map_congr_left fun r _ => hgf r)

/-- The left-join branch over a fixed match list, joined onto a removed
base row, is the removal of the branch over the base row. -/
theorem branch_map_base {β γ : Type} (h : β → β) {q₁ q₂ : γ → Bool} {d₁ d₂ : β}
    {f₁ f₂ : γ → β} {cov : List γ}
    (hq : ∀ c, q₁ c = q₂ c) (hd : d₁ = h d₂) (hf : ∀ c, f₁ c = h (f₂ c)) :
    (if (cov.filter q₁).isEmpty then [d₁] else (cov.filter q₁).map f₁) =
      (if (cov.filter q₂).isEmpty then [d₂] else (cov.filter q₂).map f₂).map h := by
  rw [List.filter_congr (fun x _ => hq x)]
  cases hc : cov.filter q₂ with
  | nil => simp [hd]
  | cons x xs =>
      simp only [List.isEmpty_cons, Bool.false_eq_true, if_false, List.map_map]
      exact List.map_congr_left (fun r _ => hf r)

/-- The rate-card join reads nothing from the agency fuzzy column: it
only copies it into the output rows. -/
theorem spineRates_erase (spine : List SpineRow) (l : List RateRowC) :
    spineRates spine (l.map eraseRateCAC) = (spineRates spine l).map eraseEnrCAC := by
  unfold spineRates
  rw [List.map_flatMap]
  refine congrArg (List.flatMap spine) (funext fun s => ?_)
  rw [filter_erase_comm eraseRateCAC
    (fun r => decide (r.agency_clean = s.agency_clean ∧ r.city_clean = s.city_clean))
    (fun r => rfl) l]
  exact branch_map_erase eraseRateCAC eraseEnrCAC rfl (fun r => rfl)

/-- The coverage join reads nothing from the agency fuzzy column. -/
theorem attachCoverage_erase (rows : List EnrRow) (cov : List CovRowC) :
    attachCoverage (rows.map eraseEnrCAC) cov = (attachCoverage rows cov).map eraseEnrCAC := by
  unfold attachCoverage
  rw [List.flatMap_map, List.map_flatMap]
  refine congrArg (List.flatMap rows) (funext fun e => ?_)
  exact branch_map_base eraseEnrCAC (fun c => rfl) rfl (fun c => rfl)

/-- The presence stage reads nothing from the agency fuzzy column. -/
theorem addPresence_erase (rows : List EnrRow) :
    addPresence (rows.map eraseEnrCAC) = (addPresence rows).map eraseEnrCAC := by
  unfold addPresence
  rw [List.map_map, List.map_map]
  rfl

/-- The city average reads nothing from the agency fuzzy column. -/
theorem cityAvg_erase (rows : List EnrRow) :
    cityAvg (rows.map eraseEnrCAC) = cityAvg rows := by
  funext c
  unfold cityAvg
  rw [List.filter_map, List.filterMap_map]
  rfl

/-- The city-columns stage reads nothing from the agency fuzzy column. -/
theorem addCityStats_erase (rows : List EnrRow) :
    addCityStats (rows.map eraseEnrCAC) = (addCityStats rows).map eraseEnrCAC := by
  unfold addCityStats
  rw [cityAvg_erase, List.map_map, List.map_map]
  rfl

/-- The city filter reads nothing from the agency fuzzy column. -/
theorem filterCity_erase (selc : List String) (rs : List EnrRow) :
    (rs.map eraseEnrCAC).filter (fun r => (r.city.map (fun c => selc.contains c)).getD false) =
      (rs.filter (fun r => (r.city.map (fun c => selc.contains c)).getD false)).map
        eraseEnrCAC :=
  filter_erase_comm eraseEnrCAC
    (fun r => (r.city.map (fun c => selc.contains c)).getD false) (fun r => rfl) rs

/-- The agency filter reads nothing from the agency fuzzy column. -/
theorem filterAgency_erase (sela : List String) (rs : List EnrRow) :
    (rs.map eraseEnrCAC).filter
        (fun r => (r.agency_name.map (fun a => sela.contains a)).getD false) =
      (rs.filter (fun r => (r.agency_name.map (fun a => sela.contains a)).getD false)).map
        eraseEnrCAC :=
  filter_erase_comm eraseEnrCAC
    (fun r => (r.agency_name.map (fun a => sela.contains a)).getD false) (fun r => rfl) rs

/-- The client filter reads nothing from the agency fuzzy column. -/
theorem filterClient_erase (selcl : String) (rs : List EnrRow) :
    (rs.map eraseEnrCAC).filter (fun r => r.employer_id = some selcl) =
      (rs.filter (fun r => r.employer_id = some selcl)).map eraseEnrCAC :=
  filter_erase_comm eraseEnrCAC
    (fun r => decide (r.employer_id = some selcl)) (fun r => rfl) rs

/-- The sidebar filters read nothing from the agency fuzzy column. -/
theorem applyFilters_erase (rows : List EnrRow) (selc sela : List String) (selcl : String) :
    applyFilters (rows.map eraseEnrCAC) selc sela selcl =
      (applyFilters rows selc sela selcl).map eraseEnrCAC := by
  unfold applyFilters
  by_cases h1 : "All" ∈ selc <;> by_cases h2 : "All" ∈ sela <;> by_cases h3 : selcl = "All" <;>
    simp only [h1, h2, h3, if_true, if_false, ite_true, ite_false, filterCity_erase,
      filterAgency_erase, filterClient_erase]

/-- **C10 (amended).** No stage reads the agency-level fuzzy-match
column: with the agency fuzzy-matching step removed, the spine is
identical, and the output table — before or after any filter
selection — is identical once the `coverage_agency_clean` column
itself is dropped; cross-source agency identity is resolved only by
exact equality of cleaned keys.  (The raw exports differ exactly in
that column, which the source carries into `final` and the CSV.) -/
theorem c10_agency_fuzzy_unused (cov : List CovRowIn) (rate : List RateRowIn) :
    buildSpine ((ingestRatecard rate).map (prepRate false (cov.map cleanCov)))
        (cov.map cleanCov) = spineOf cov rate ∧
    pipeline false cov rate = (pipeline true cov rate).map eraseEnrCAC ∧
    (∀ selc sela selcl,
      applyFilters (pipeline false cov rate) selc sela selcl =
        (applyFilters (pipeline true cov rate) selc sela selcl).map eraseEnrCAC) := by
  have hmapF : (ingestRatecard rate).map (prepRate false (cov.map cleanCov)) =
      ((ingestRatecard rate).map (prepRate true (cov.map cleanCov))).map eraseRateCAC := by
    rw [List.map_map]
    rfl
  have hspine : buildSpine ((ingestRatecard rate).map (prepRate false (cov.map cleanCov)))
      (cov.map cleanCov) = spineOf cov rate := by
    rw [hmapF]
    unfold buildSpine spineOf buildSpine
    rw [ratePairs_erase]
  have hpipe : pipeline false cov rate = (pipeline true cov rate).map eraseEnrCAC := by
    show addCityStats (addPresence (attachCoverage
        (spineRates
          (buildSpine ((ingestRatecard rate).map (prepRate false (cov.map cleanCov)))
            (cov.map cleanCov))
          ((ingestRatecard rate).map (prepRate false (cov.map cleanCov))))
        (cov.map cleanCov))) = _
    rw [hspine, hmapF, spineRates_erase, attachCoverage_erase, addPresence_erase,
      addCityStats_erase]
    rfl
  exact ⟨hspine, hpipe, fun selc sela selcl => by rw [hpipe, applyFilters_erase]⟩

end AgencyDashboard
